import Mathlib

/-!
# Verification of the one-host chunked file-transfer core

Shallow embedding of the chunked transfer protocol, relay forwarder,
send queue and bulk-retrieval planner of the one-host repository.
Byte buffers are `List Nat`; JavaScript `Map`s keyed by strings are
association lists; JavaScript objects used as dictionaries
(`fileChunks`) are association lists as well.
-/

namespace OneHost

/-- `const CHUNK_SIZE = window.CONFIG?.CHUNK_SIZE || 16384;` with
`CONFIG.CHUNK_SIZE = 16384` (js/config/constants.js). -/
def CHUNK_SIZE : Nat := 16384

abbrev Bytes := List Nat

/-- Association-list deletion, modelling `Map.delete` / `delete obj[k]`. -/
def eraseKey (k : String) (m : List (String × α)) : List (String × α) :=
  m.filter (fun p => p.1 != k)

/-- Association-list insertion/overwrite, modelling `map.set(k, v)` /
`obj[k] = v`. -/
def insertKey (k : String) (v : α) (m : List (String × α)) : List (String × α) :=
  (k, v) :: eraseKey k m

/-- In-place update of the entry at key `k`, modelling field mutation on
`map.get(k)`. -/
def updateKey (k : String) (f : α → α) (m : List (String × α)) :
    List (String × α) :=
  m.map (fun p => if p.1 = k then (p.1, f p.2) else p)

/-- Wire messages sent over a data connection (`conn.send({type: ...})`).
Only the fields the verified components read are carried. -/
inductive Msg where
  | fileInfo (fileId fileName fileType : String) (fileSize : Nat)
      (originalSender : String)
  | fileHeader (fileId fileName fileType : String) (fileSize : Nat)
      (originalSender : String)
  | fileChunk (fileId : String) (data : Bytes)
  | fileComplete (fileId fileName fileType : String) (fileSize : Nat)
  | blobError (fileId : String) (error : String)
deriving DecidableEq, Repr

/-- A stored `Blob` (`sentFileBlobs.get(fileId)`): a MIME type plus bytes;
`blob.size` is `bytes.length`. -/
structure Blob where
  type : String
  bytes : Bytes
deriving DecidableEq, Repr

/-- The successive slices taken by the send loop of `handleBlobRequest`:
`buffer.slice(offset, offset + CHUNK_SIZE)` with
`offset += chunk.byteLength` until `offset >= blob.size`. -/
def chunkDatas (buf : Bytes) (offset : Nat) : List Bytes :=
  if _h : offset < buf.length then
    (buf.drop offset).take CHUNK_SIZE
      :: chunkDatas buf (offset + ((buf.drop offset).take CHUNK_SIZE).length)
  else []
termination_by buf.length - offset
decreasing_by
  simp only [List.length_take, List.length_drop, CHUNK_SIZE]
  omega

/-- The `file-chunk` messages emitted by the send loop of
`handleBlobRequest`, one per slice of `chunkDatas`. -/
def sendChunkMsgs (fileId : String) (buf : Bytes) (offset : Nat) : List Msg :=
  (chunkDatas buf offset).map (fun d => Msg.fileChunk fileId d)

/-- `handleBlobRequest(data, conn)` as the list of messages sent on `conn`:
if `sentFileBlobs` has no blob for `fileId`, a single
`blob-error {error: 'File not available'}`; otherwise the `file-header`,
the chunk messages, then the `file-complete`. -/
def handleBlobRequest (sentFileBlobs : List (String × Blob))
    (fileId fileName selfId : String) : List Msg :=
  match sentFileBlobs.lookup fileId with
  | none => [Msg.blobError fileId "File not available"]
  | some blob =>
      Msg.fileHeader fileId fileName blob.type blob.bytes.length selfId
        :: sendChunkMsgs fileId blob.bytes 0
        ++ [Msg.fileComplete fileId fileName blob.type blob.bytes.length]

theorem drop_take_length {α : Type} (C : Nat) (l : List α) :
    l.drop (l.take C).length = l.drop C := by
  rw [List.length_take]
  rcases Nat.le_total C l.length with h | h
  · rw [Nat.min_eq_left h]
  · rw [Nat.min_eq_right h, List.drop_eq_nil_of_le (Nat.le_refl _),
      List.drop_eq_nil_of_le h]

theorem chunkDatas_flatten (buf : Bytes) (offset : Nat) :
    (chunkDatas buf offset).flatten = buf.drop offset := by
  induction offset using chunkDatas.induct buf with
  | case1 offset h ih =>
      rw [chunkDatas, dif_pos h]
      simp only [List.flatten_cons, ih]
      rw [← List.drop_drop, drop_take_length, List.take_append_drop]
  | case2 offset h =>
      rw [chunkDatas, dif_neg h, List.flatten_nil,
        Eq.comm, List.drop_eq_nil_iff]
      omega

theorem chunkDatas_count (buf : Bytes) (offset : Nat) :
    (chunkDatas buf offset).length =
      (buf.length - offset + CHUNK_SIZE - 1) / CHUNK_SIZE := by
  induction offset using chunkDatas.induct buf with
  | case1 offset h ih =>
      rw [chunkDatas, dif_pos h, List.length_cons, ih]
      simp only [List.length_take, List.length_drop, CHUNK_SIZE]
      omega
  | case2 offset h =>
      rw [chunkDatas, dif_neg h]
      simp only [List.length_nil, CHUNK_SIZE]
      omega

theorem chunkDatas_chunk_le (buf : Bytes) (offset : Nat) :
    ∀ d ∈ chunkDatas buf offset, d.length ≤ CHUNK_SIZE := by
  induction offset using chunkDatas.induct buf with
  | case1 offset h ih =>
      rw [chunkDatas, dif_pos h]
      intro d hd
      rcases List.mem_cons.mp hd with rfl | hd
      · simp only [List.length_take, List.length_drop]
        omega
      · exact ih d hd
  | case2 offset h =>
      rw [chunkDatas, dif_neg h]
      intro d hd
      cases hd

/-! ## Receiver state and handlers -/

/-- One entry of `fileChunks` (the regular save-to-disk inbound transfer
state created by `handleFileHeader`). -/
structure FileData where
  chunks : List Bytes
  fileName : String
  fileType : String
  fileSize : Nat
  receivedSize : Nat
  originalSender : String
deriving DecidableEq, Repr

/-- One entry of `pendingBlobRequests` (a caller waiting for raw bytes):
the accumulating chunks plus the `fileData` record mutated by
`handleFileHeader`/`handleFileChunk`. -/
structure PendingReq where
  chunks : List Bytes
  fileName : String
  fileType : String
  fileSize : Nat
  receivedSize : Nat
deriving DecidableEq, Repr

/-- The receiver-side mutable state read by the three file handlers:
the `pendingBlobRequests` map and the `fileChunks` dictionary. -/
structure RecvState where
  pendingBlobRequests : List (String × PendingReq)
  fileChunks : List (String × FileData)
deriving DecidableEq, Repr

/-- `handleFileHeader(data)`: a pending blob request for the fileId is
re-initialised in place; otherwise a fresh `fileChunks[fileId]` entry is
allocated (replacing any existing one). -/
def handleFileHeader (st : RecvState) (fileId fileName fileType : String)
    (fileSize : Nat) (originalSender : String) : RecvState :=
  if (st.pendingBlobRequests.lookup fileId).isSome then
    { st with
        pendingBlobRequests :=
          updateKey fileId
            (fun r =>
              { r with
                  fileName := fileName, fileType := fileType,
                  fileSize := fileSize, receivedSize := 0, chunks := [] })
            st.pendingBlobRequests }
  else
    { st with
        fileChunks :=
          insertKey fileId ⟨[], fileName, fileType, fileSize, 0, originalSender⟩
            st.fileChunks }

/-- `handleFileChunk(data)`: appends the payload to the pending blob
request if one exists, else to `fileChunks[fileId]`; with neither, the
handler returns without touching anything. -/
def handleFileChunk (st : RecvState) (fileId : String) (data : Bytes) :
    RecvState :=
  if (st.pendingBlobRequests.lookup fileId).isSome then
    { st with
        pendingBlobRequests :=
          updateKey fileId
            (fun r =>
              { r with
                  chunks := r.chunks ++ [data],
                  receivedSize := r.receivedSize + data.length })
            st.pendingBlobRequests }
  else
    match st.fileChunks.lookup fileId with
    | none => st
    | some _ =>
        { st with
            fileChunks :=
              updateKey fileId
                (fun fd =>
                  { fd with
                      chunks := fd.chunks ++ [data],
                      receivedSize := fd.receivedSize + data.length })
                st.fileChunks }

/-- The externally observable effect of `handleFileComplete`:
no-op, promise resolution/rejection (pending blob request path), or
`downloadBlob` / error-notification / silent completion (regular path). -/
inductive CompleteEffect where
  | noop
  | resolved (bytes : Bytes)
  | rejected (error : String)
  | downloaded (bytes : Bytes)
  | errorNotified (error : String)
  | completedNoDownload
deriving DecidableEq, Repr

/-- The message of the `Error` thrown when `blob.size !== fileSize`. -/
def sizeMismatchMsg : String := "Received file size does not match expected size"

/-- `handleFileComplete(data)`, returning the effect and the new state.
Pending path: the request is deleted first; with chunks, the blob is the
concatenation and is size-checked (mismatch rejects); with no chunks the
request rejects with 'No chunks received'.  Regular path: an absent
`fileChunks` entry returns untouched; otherwise, with chunks, the blob is
size-checked (mismatch is caught and notified, match triggers
`downloadBlob`); the `finally` block deletes the entry. -/
def handleFileComplete (st : RecvState) (fileId : String) :
    CompleteEffect × RecvState :=
  match st.pendingBlobRequests.lookup fileId with
  | some r =>
      let st' := { st with pendingBlobRequests := eraseKey fileId st.pendingBlobRequests }
      if r.chunks.length > 0 then
        let blob := r.chunks.flatten
        if blob.length ≠ r.fileSize then (.rejected sizeMismatchMsg, st')
        else (.resolved blob, st')
      else (.rejected "No chunks received", st')
  | none =>
      match st.fileChunks.lookup fileId with
      | none => (.noop, st)
      | some fd =>
          let st' := { st with fileChunks := eraseKey fileId st.fileChunks }
          if fd.chunks.length > 0 then
            let blob := fd.chunks.flatten
            if blob.length ≠ fd.fileSize then (.errorNotified sizeMismatchMsg, st')
            else (.downloaded blob, st')
          else (.completedNoDownload, st')

/-- The requester-side `blob-error` branch of the data dispatcher: a
pending blob request for the fileId is deleted and rejected with
`data.error || 'Failed to download file'`; otherwise only a notification
is shown.  Returns the rejection message (if any) and the new map. -/
def onBlobError (pending : List (String × PendingReq))
    (fileId errMsg : String) : Option String × List (String × PendingReq) :=
  match pending.lookup fileId with
  | some _ =>
      (some (if errMsg = "" then "Failed to download file" else errMsg),
        eraseKey fileId pending)
  | none => (none, pending)

/-- State transition of the receiver dispatcher for the messages that
mutate `RecvState` (`file-header` and `file-chunk`). -/
def applyMsg (st : RecvState) : Msg → RecvState
  | .fileHeader fid name ty size sender => handleFileHeader st fid name ty size sender
  | .fileChunk fid d => handleFileChunk st fid d
  | _ => st

/-! ## Relay forwarder -/

/-- The slice of a data connection the forwarder reads: `conn.open`. -/
structure ConnInfo where
  isOpen : Bool
deriving DecidableEq, Repr

/-- A `fileInfo` record as built by the dispatcher:
`{name, type, size, id, sharedBy}`. -/
structure FileInfo where
  name : String
  type : String
  size : Nat
  id : String
  sharedBy : String
deriving DecidableEq, Repr

/-- `forwardFileInfoToPeers(fileInfo, fileId)` as the list of
`(peerId, message)` pairs sent: one `file-info` message, with
`originalSender: fileInfo.sharedBy || peer.id`, to every connection whose
peerId differs from `fileInfo.sharedBy` and whose channel is open. -/
def forwardFileInfoToPeers (selfId : String)
    (connections : List (String × ConnInfo)) (fileInfo : FileInfo)
    (fileId : String) : List (String × Msg) :=
  let originalSender :=
    if fileInfo.sharedBy = "" then selfId else fileInfo.sharedBy
  let msg := Msg.fileInfo fileId fileInfo.name fileInfo.type fileInfo.size
    originalSender
  (connections.filter
      (fun p => decide (p.1 ≠ fileInfo.sharedBy) && p.2.isOpen)).map
    (fun p => (p.1, msg))

/-- The `'file-info'` branch of the data dispatcher, as the list of
messages sent: nothing when the fileId is already in the sent or received
history; otherwise, when more than one connection is open at the hub, the
descriptor is forwarded via `forwardFileInfoToPeers`. -/
def onFileInfo (selfId : String) (connections : List (String × ConnInfo))
    (sentHistory receivedHistory : List String)
    (fileId fileName fileType : String) (fileSize : Nat)
    (originalSender : String) : List (String × Msg) :=
  if sentHistory.contains fileId || receivedHistory.contains fileId then []
  else if connections.length > 1 then
    forwardFileInfoToPeers selfId connections
      ⟨fileName, fileType, fileSize, fileId, originalSender⟩ fileId
  else []

/-! ## Multi-recipient send (`sendFile`) -/

/-- The slice of a connection the `sendFile` fan-out loop reads:
whether the channel is open, and whether `sendFileToPeer` on it throws. -/
structure SendConn where
  isOpen : Bool
  sendFails : Bool
deriving DecidableEq, Repr

/-- One iteration of the `for (const [peerId, conn] of connections)` loop
of `sendFile`: skip a closed connection; otherwise attempt
`sendFileToPeer` and either bump `successCount` or push onto `errors`.
The third component records every peer actually attempted. -/
def sendLoopStep (acc : Nat × List String × List String)
    (pc : String × SendConn) : Nat × List String × List String :=
  if pc.2.isOpen then
    if pc.2.sendFails then
      (acc.1, acc.2.1 ++ ["Failed to send to peer " ++ pc.1],
        acc.2.2 ++ [pc.1])
    else (acc.1 + 1, acc.2.1, acc.2.2 ++ [pc.1])
  else acc

/-- The whole fan-out loop of `sendFile`: `(successCount, errors,
attempted peers)` after visiting every connection. -/
def sendFileFanout (connections : List (String × SendConn)) :
    Nat × List String × List String :=
  connections.foldl sendLoopStep (0, [], [])

/-- Overall result of one `sendFile(file)` call. -/
inductive SendOutcome where
  | noPeers
  | sent (successCount : Nat)
  | failedAll (errors : List String)
deriving DecidableEq, Repr

/-- `sendFile(file)`: early return when no connections exist; otherwise
run the fan-out loop and throw `'Failed to send file to any peers'`
exactly when `successCount` stayed `0`. -/
def sendFileResult (connections : List (String × SendConn)) : SendOutcome :=
  if connections.length = 0 then .noPeers
  else
    let r := sendFileFanout connections
    if r.1 > 0 then .sent r.1 else .failedAll r.2.1

/-! ## Send queue -/

/-- The two globals of the send queue: `fileQueue` (file names, FIFO) and
the `isProcessingQueue` busy flag. -/
structure QueueState where
  fileQueue : List String
  isProcessingQueue : Bool
deriving DecidableEq, Repr

/-- The `while (fileQueue.length > 0)` loop of `processFileQueue`:
`shift()` the head, `await sendFile(file)` (its success or failure is the
oracle's verdict; the `catch` swallows a failure and the loop continues),
until the queue is empty.  Returns the processed `(file, verdict)` log and
the final queue contents. -/
def drainLoop (outcome : String → Bool) :
    List String → List (String × Bool) × List String
  | [] => ([], [])
  | f :: rest =>
      let r := drainLoop outcome rest
      ((f, outcome f) :: r.1, r.2)

/-- `processFileQueue()`: returns immediately when already processing or
when the queue is empty; otherwise sets the busy flag, drains the queue,
and clears the busy flag. -/
def processFileQueue (outcome : String → Bool) (s : QueueState) :
    List (String × Bool) × QueueState :=
  if s.isProcessingQueue || s.fileQueue.isEmpty then ([], s)
  else
    let r := drainLoop outcome s.fileQueue
    (r.1, { fileQueue := r.2, isProcessingQueue := false })

/-- `sendFile` while a transfer is in progress: `fileQueue.push(file)`. -/
def enqueueFile (q : List String) (f : String) : List String := q ++ [f]

/-! ## Bulk-retrieval planner -/

/-- `const ZIP_SIZE_LIMIT = 400 * 1024 * 1024` (`downloadAllReceivedFiles`). -/
def ZIP_SIZE_LIMIT : Nat := 400 * 1024 * 1024

/-- `const INDIVIDUAL_DOWNLOAD_THRESHOLD = 350 * 1024 * 1024`. -/
def INDIVIDUAL_DOWNLOAD_THRESHOLD : Nat := 350 * 1024 * 1024

/-- The inner `for (let j = i + 1; ...)` scan: does some not-yet-placed
file, itself within the individual-download threshold, fit in one batch
together with the current file? -/
def canFitWithRemaining (fileSize : Nat) (remaining : List FileInfo) : Bool :=
  remaining.any (fun g =>
    if g.size > INDIVIDUAL_DOWNLOAD_THRESHOLD then false
    else decide (fileSize + g.size ≤ ZIP_SIZE_LIMIT))

/-- Result of the planner: `zipBatches` plus `individualFiles`. -/
structure PlanResult where
  zipBatches : List (List FileInfo)
  individualFiles : List FileInfo
deriving DecidableEq, Repr

/-- The batching loop of `downloadAllReceivedFiles`, one iteration per
file of the (sorted) input: oversized files go to `individualFiles`; a
file fitting the current batch is appended to it; otherwise the current
batch (if nonempty) is flushed to `zipBatches`, and the file either seeds
a new batch (when it could share a future batch with a remaining file) or
goes to `individualFiles`.  The trailing nonempty batch is flushed at the
end. -/
def planLoop :
    List FileInfo → List (List FileInfo) → List FileInfo → List FileInfo →
      Nat → PlanResult
  | [], zipBatches, individualFiles, currentBatch, _ =>
      ⟨if currentBatch.length > 0 then zipBatches ++ [currentBatch]
        else zipBatches,
        individualFiles⟩
  | f :: rest, zipBatches, individualFiles, currentBatch, currentBatchSize =>
      if f.size > INDIVIDUAL_DOWNLOAD_THRESHOLD then
        planLoop rest zipBatches (individualFiles ++ [f]) currentBatch
          currentBatchSize
      else if currentBatchSize + f.size ≤ ZIP_SIZE_LIMIT then
        planLoop rest zipBatches individualFiles (currentBatch ++ [f])
          (currentBatchSize + f.size)
      else
        let zipBatches' :=
          if currentBatch.length > 0 then zipBatches ++ [currentBatch]
          else zipBatches
        let currentBatch' : List FileInfo :=
          if currentBatch.length > 0 then [] else currentBatch
        let currentBatchSize' :=
          if currentBatch.length > 0 then 0 else currentBatchSize
        if canFitWithRemaining f.size rest then
          planLoop rest zipBatches' individualFiles (currentBatch' ++ [f])
            f.size
        else
          planLoop rest zipBatches' (individualFiles ++ [f]) currentBatch'
            currentBatchSize'

/-- The planner of `downloadAllReceivedFiles`: sort ascending by size
(`(a.size||0) - (b.size||0)` comparator), then run the batching loop on
empty accumulators. -/
def planBatches (files : List FileInfo) : PlanResult :=
  planLoop (files.mergeSort (fun a b => decide (a.size ≤ b.size))) [] [] [] 0

/-! ## Association-list lemmas -/

theorem lookup_eraseKey_self {α : Type} (k : String) (m : List (String × α)) :
    (eraseKey k m).lookup k = none := by
  induction m with
  | nil => rfl
  | cons p m ih =>
      rw [eraseKey, List.filter_cons]
      by_cases h : p.1 = k
      · subst h
        simpa [eraseKey] using ih
      · rw [if_pos (by simpa using h)]
        rw [List.lookup_cons, beq_false_of_ne (fun e : k = p.1 => h e.symm)]
        exact ih

theorem lookup_updateKey_self {α : Type} (k : String) (f : α → α)
    (m : List (String × α)) :
    (updateKey k f m).lookup k = (m.lookup k).map f := by
  induction m with
  | nil => rfl
  | cons p m ih =>
      rw [updateKey, List.map_cons]
      by_cases h : p.1 = k
      · rw [if_pos h]
        rw [List.lookup_cons, List.lookup_cons, beq_iff_eq.mpr h.symm]
        rfl
      · rw [if_neg h]
        have hb := beq_false_of_ne (fun e : k = p.1 => h e.symm)
        rw [List.lookup_cons, List.lookup_cons, hb]
        exact ih

/-! ## Claim theorems -/

/-- C10: a `file-chunk` or `file-complete` message whose fileId has neither
an inbound transfer state nor a pending blob request is a no-op at the
public interface: the handlers return with the state unchanged, raise no
error effect, and send no reply. -/
theorem orphan_messages_noop (st : RecvState) (fileId : String) (data : Bytes)
    (hp : st.pendingBlobRequests.lookup fileId = none)
    (hf : st.fileChunks.lookup fileId = none) :
    handleFileChunk st fileId data = st ∧
      handleFileComplete st fileId = (CompleteEffect.noop, st) := by
  constructor
  · simp [handleFileChunk, hp, hf]
  · simp [handleFileComplete, hp, hf]

/-- Witness for C10 at the empty receiver state. -/
theorem orphan_messages_noop_witness :
    handleFileChunk ⟨[], []⟩ "f" [1, 2] = ⟨[], []⟩ ∧
      handleFileComplete ⟨[], []⟩ "f" = (CompleteEffect.noop, ⟨[], []⟩) :=
  orphan_messages_noop (RecvState.mk [] []) "f" [1, 2] rfl rfl

/-- C7: a blob-request naming a fileId the addressee does not hold is
answered by exactly one message, `blob-error {fileId, error: 'File not
available'}` (so no header, chunk, or completion); on the requester, a
pending blob request for that fileId is removed and rejected with that
message. -/
theorem absent_blob_error_reply (sentFileBlobs : List (String × Blob))
    (pending : List (String × PendingReq)) (fileId fileName selfId : String)
    (r : PendingReq)
    (hb : sentFileBlobs.lookup fileId = none)
    (hp : pending.lookup fileId = some r) :
    handleBlobRequest sentFileBlobs fileId fileName selfId
        = [Msg.blobError fileId "File not available"] ∧
      onBlobError pending fileId "File not available"
        = (some "File not available", eraseKey fileId pending) ∧
      (eraseKey fileId pending).lookup fileId = none := by
  refine ⟨?_, ?_, lookup_eraseKey_self fileId pending⟩
  · rw [handleBlobRequest, hb]
  · rw [onBlobError, hp]
    simp

/-- Witness for C7: an empty blob store and one pending request. -/
theorem absent_blob_error_reply_witness :
    handleBlobRequest [] "f" "a.txt" "me"
        = [Msg.blobError "f" "File not available"] ∧
      onBlobError [("f", (PendingReq.mk [] "a.txt" "text/plain" 3 0))] "f"
          "File not available"
        = (some "File not available",
            eraseKey "f" [("f", (PendingReq.mk [] "a.txt" "text/plain" 3 0))]) ∧
      (eraseKey "f" [("f", (PendingReq.mk [] "a.txt" "text/plain" 3 0))]).lookup "f"
        = none :=
  absent_blob_error_reply [] [("f", (PendingReq.mk [] "a.txt" "text/plain" 3 0))]
    "f" "a.txt" "me" (PendingReq.mk [] "a.txt" "text/plain" 3 0) rfl (by decide)

/-- C4: a hub receiving a previously-unseen `file-info` announcement whose
`originalSender` is `A` sends a `file-info` message with the same fileId,
name, type and size to exactly the open sessions other than `A`, and the
forwarded `originalSender` is still `A`. -/
theorem hub_forwards_to_others (selfId A fid name ty : String) (size : Nat)
    (connections : List (String × ConnInfo))
    (sentHistory receivedHistory : List String)
    (hA : A ≠ "")
    (hub : connections.length > 1)
    (hs : sentHistory.contains fid = false)
    (hr : receivedHistory.contains fid = false) :
    onFileInfo selfId connections sentHistory receivedHistory fid name ty
        size A
        = (connections.filter (fun p => decide (p.1 ≠ A) && p.2.isOpen)).map
            (fun p => (p.1, Msg.fileInfo fid name ty size A))
      ∧ ∀ q ∈ onFileInfo selfId connections sentHistory receivedHistory fid
            name ty size A, q.1 ≠ A := by
  have hmain :
      onFileInfo selfId connections sentHistory receivedHistory fid name ty
          size A
        = (connections.filter (fun p => decide (p.1 ≠ A) && p.2.isOpen)).map
            (fun p => (p.1, Msg.fileInfo fid name ty size A)) := by
    rw [onFileInfo, hs, hr]
    simp only [Bool.or_self, Bool.false_eq_true, if_false, if_pos hub]
    rw [forwardFileInfoToPeers]
    simp only [if_neg hA]
  refine ⟨hmain, ?_⟩
  intro q hq
  rw [hmain] at hq
  obtain ⟨p, hp, rfl⟩ := List.mem_map.mp hq
  have := (List.mem_filter.mp hp).2
  have h1 := (Bool.and_eq_true _ _).mp this
  exact of_decide_eq_true h1.1

/-- Witness for C4: hub `H` with open sessions `A`, `B`, `C` and an
unseen announcement owned by `A` forwards exactly to `B` and `C`. -/
theorem hub_forwards_to_others_witness :
    onFileInfo "H" [("A", ConnInfo.mk true), ("B", ConnInfo.mk true), ("C", ConnInfo.mk true)] [] []
        "f1" "a.txt" "text/plain" 5 "A"
        = ([("A", ConnInfo.mk true), ("B", ConnInfo.mk true), ("C", ConnInfo.mk true)].filter
              (fun p => decide (p.1 ≠ "A") && p.2.isOpen)).map
            (fun p => (p.1, Msg.fileInfo "f1" "a.txt" "text/plain" 5 "A"))
      ∧ ∀ q ∈ onFileInfo "H"
            [("A", ConnInfo.mk true), ("B", ConnInfo.mk true), ("C", ConnInfo.mk true)] [] []
            "f1" "a.txt" "text/plain" 5 "A", q.1 ≠ "A" :=
  hub_forwards_to_others "H" "A" "f1" "a.txt" "text/plain" 5
    [("A", ConnInfo.mk true), ("B", ConnInfo.mk true), ("C", ConnInfo.mk true)] [] []
    (by decide) (by decide) rfl rfl

theorem sendFileFanout_go (conns : List (String × SendConn)) :
    ∀ acc : Nat × List String × List String,
      conns.foldl sendLoopStep acc
        = (acc.1 + conns.countP (fun pc => pc.2.isOpen && !pc.2.sendFails),
            acc.2.1 ++ (conns.filter
                (fun pc => pc.2.isOpen && pc.2.sendFails)).map
              (fun pc => "Failed to send to peer " ++ pc.1),
            acc.2.2 ++ (conns.filter (fun pc => pc.2.isOpen)).map
              (fun pc => pc.1)) := by
  induction conns with
  | nil => intro acc; simp
  | cons pc conns ih =>
      intro acc
      obtain ⟨pid, o, f⟩ := pc
      rw [List.foldl_cons, ih]
      cases o <;> cases f <;>
        simp [sendLoopStep, List.countP_cons, List.filter_cons,
          Nat.add_comm, Nat.add_assoc, Nat.add_left_comm]

/-- C6: the `sendFile` fan-out attempts every open connection even when an
earlier recipient failed, and the overall send raises the
`'Failed to send file to any peers'` failure exactly when the success
count is zero. -/
theorem fanout_failure_isolation (connections : List (String × SendConn))
    (hne : connections ≠ []) :
    (sendFileFanout connections).2.2
        = (connections.filter (fun pc => pc.2.isOpen)).map (fun pc => pc.1)
      ∧ (sendFileFanout connections).1
          = connections.countP (fun pc => pc.2.isOpen && !pc.2.sendFails)
      ∧ ((∃ errs, sendFileResult connections = SendOutcome.failedAll errs)
          ↔ connections.countP (fun pc => pc.2.isOpen && !pc.2.sendFails)
              = 0) := by
  have h1 : (sendFileFanout connections).1
      = connections.countP (fun pc => pc.2.isOpen && !pc.2.sendFails) := by
    rw [sendFileFanout, sendFileFanout_go]
    simp
  have h3 : (sendFileFanout connections).2.2
      = (connections.filter (fun pc => pc.2.isOpen)).map (fun pc => pc.1) := by
    rw [sendFileFanout, sendFileFanout_go]
    simp
  have hlen : ¬connections.length = 0 := by
    simpa [List.length_eq_zero] using hne
  refine ⟨h3, h1, ?_⟩
  constructor
  · rintro ⟨errs, he⟩
    by_contra hne0
    have hpos : (sendFileFanout connections).1 > 0 := by
      rw [h1]; omega
    rw [sendFileResult, if_neg hlen] at he
    simp only [if_pos hpos] at he
    exact SendOutcome.noConfusion he
  · intro h0
    refine ⟨(sendFileFanout connections).2.1, ?_⟩
    have hnpos : ¬(sendFileFanout connections).1 > 0 := by
      rw [h1, h0]; omega
    rw [sendFileResult, if_neg hlen]
    simp only [if_neg hnpos]

/-- Witness for C6: two open connections, the first failing, the second
succeeding; the send is attempted on both and does not fail overall. -/
theorem fanout_failure_isolation_witness :
    (sendFileFanout
          [("A", SendConn.mk true true), ("B", SendConn.mk true false)]).2.2
        = ([("A", SendConn.mk true true), ("B", SendConn.mk true false)].filter
              (fun pc => pc.2.isOpen)).map (fun pc => pc.1)
      ∧ (sendFileFanout
            [("A", SendConn.mk true true), ("B", SendConn.mk true false)]).1
          = [("A", SendConn.mk true true),
              ("B", SendConn.mk true false)].countP
              (fun pc => pc.2.isOpen && !pc.2.sendFails)
      ∧ ((∃ errs, sendFileResult
              [("A", SendConn.mk true true), ("B", SendConn.mk true false)]
              = SendOutcome.failedAll errs)
          ↔ [("A", SendConn.mk true true),
              ("B", SendConn.mk true false)].countP
              (fun pc => pc.2.isOpen && !pc.2.sendFails) = 0) :=
  fanout_failure_isolation
    [("A", SendConn.mk true true), ("B", SendConn.mk true false)] (by decide)

theorem foldl_enqueueFile (files : List String) :
    ∀ q : List String, files.foldl enqueueFile q = q ++ files := by
  induction files with
  | nil => intro q; simp
  | cons f files ih =>
      intro q
      rw [List.foldl_cons, enqueueFile, ih]
      simp

theorem drainLoop_spec (outcome : String → Bool) (q : List String) :
    ((drainLoop outcome q).1).map Prod.fst = q ∧ (drainLoop outcome q).2 = [] := by
  induction q with
  | nil => exact ⟨rfl, rfl⟩
  | cons f rest ih =>
      rw [drainLoop]
      exact ⟨by simpa using ih.1, ih.2⟩

/-- C8: files enqueued while the queue is busy are processed exactly once
each, in FIFO order, regardless of each file's success or failure; after
the drain the queue is empty and the busy flag is cleared; a re-entrant
`processFileQueue` call while the busy flag is set is a no-op. -/
theorem queue_drains_fifo (outcome : String → Bool) (files : List String) :
    ((processFileQueue outcome
          ⟨files.foldl enqueueFile [], false⟩).1).map Prod.fst = files
      ∧ (processFileQueue outcome ⟨files.foldl enqueueFile [], false⟩).2
          = ⟨[], false⟩
      ∧ ∀ q : List String,
          processFileQueue outcome ⟨q, true⟩ = ([], ⟨q, true⟩) := by
  have henq : files.foldl enqueueFile [] = files := by
    rw [foldl_enqueueFile]; simp
  refine ⟨?_, ?_, fun q => by rw [processFileQueue]; simp⟩
  · rw [henq, processFileQueue]
    rcases files with _ | ⟨f, rest⟩
    · simp
    · simp only [Bool.false_eq_true, List.isEmpty_cons, Bool.or_self,
        if_false]
      exact (drainLoop_spec outcome (f :: rest)).1
  · rw [henq, processFileQueue]
    rcases files with _ | ⟨f, rest⟩
    · simp
    · simp only [Bool.false_eq_true, List.isEmpty_cons, Bool.or_self,
        if_false]
      rw [(drainLoop_spec outcome (f :: rest)).2]

/-- C5: a whole-file send over an open channel emits exactly one header,
then exactly `ceil(size / CHUNK_SIZE)` chunk messages each carrying at
most `CHUNK_SIZE` bytes, then exactly one completion message. -/
theorem send_sequence_header_chunks_complete
    (sentFileBlobs : List (String × Blob)) (fileId fileName selfId : String)
    (blob : Blob) (h : sentFileBlobs.lookup fileId = some blob) :
    handleBlobRequest sentFileBlobs fileId fileName selfId
        = Msg.fileHeader fileId fileName blob.type blob.bytes.length selfId
            :: sendChunkMsgs fileId blob.bytes 0
            ++ [Msg.fileComplete fileId fileName blob.type blob.bytes.length]
      ∧ (sendChunkMsgs fileId blob.bytes 0).length
          = (blob.bytes.length + CHUNK_SIZE - 1) / CHUNK_SIZE
      ∧ ∀ m ∈ sendChunkMsgs fileId blob.bytes 0,
          ∃ d : Bytes, m = Msg.fileChunk fileId d ∧ d.length ≤ CHUNK_SIZE := by
  refine ⟨by rw [handleBlobRequest, h], ?_, ?_⟩
  · rw [sendChunkMsgs, List.length_map, chunkDatas_count]
    simp
  · intro m hm
    rw [sendChunkMsgs] at hm
    obtain ⟨d, hd, rfl⟩ := List.mem_map.mp hm
    exact ⟨d, rfl, chunkDatas_chunk_le _ _ d hd⟩

/-- The 50,000-byte scenario: any 50,000-byte buffer is sent as exactly 4
chunk messages. -/
theorem sendChunkMsgs_50000 (fileId : String) (buf : Bytes)
    (h : buf.length = 50000) :
    (sendChunkMsgs fileId buf 0).length = 4 := by
  rw [sendChunkMsgs, List.length_map, chunkDatas_count, h]
  rfl

/-- Witness for C5 at a three-byte blob. -/
theorem send_sequence_header_chunks_complete_witness :
    handleBlobRequest [("f", Blob.mk "text/plain" [7, 8, 9])] "f" "a.txt" "me"
        = Msg.fileHeader "f" "a.txt" "text/plain" 3 "me"
            :: sendChunkMsgs "f" [7, 8, 9] 0
            ++ [Msg.fileComplete "f" "a.txt" "text/plain" 3]
      ∧ (sendChunkMsgs "f" [7, 8, 9] 0).length
          = (3 + CHUNK_SIZE - 1) / CHUNK_SIZE
      ∧ ∀ m ∈ sendChunkMsgs "f" [7, 8, 9] 0,
          ∃ d : Bytes, m = Msg.fileChunk "f" d ∧ d.length ≤ CHUNK_SIZE :=
  send_sequence_header_chunks_complete
    [("f", Blob.mk "text/plain" [7, 8, 9])] "f" "a.txt" "me"
    (Blob.mk "text/plain" [7, 8, 9]) (by decide)

theorem foldl_chunk_msgs (fid : String) (datas : List Bytes) :
    ∀ fd : FileData,
      (datas.map (fun d => Msg.fileChunk fid d)).foldl applyMsg
          (RecvState.mk [] [(fid, fd)])
        = RecvState.mk []
            [(fid,
              { fd with
                  chunks := fd.chunks ++ datas,
                  receivedSize := fd.receivedSize
                    + (datas.map List.length).sum })] := by
  induction datas with
  | nil => intro fd; simp
  | cons d ds ih =>
      intro fd
      rw [List.map_cons, List.foldl_cons]
      have hstep : applyMsg (RecvState.mk [] [(fid, fd)]) (Msg.fileChunk fid d)
          = RecvState.mk []
              [(fid,
                { fd with
                    chunks := fd.chunks ++ [d],
                    receivedSize := fd.receivedSize + d.length })] := by
        simp [applyMsg, handleFileChunk, updateKey, List.lookup_cons]
      rw [hstep, ih]
      simp [Nat.add_assoc]

/-- C1: for every byte buffer, sending it through `handleBlobRequest` and
feeding the header and every chunk message in arrival order into the
receiver handlers leaves, at the moment the completion message arrives, a
stored chunk sequence whose concatenation is exactly the original bytes
(and a byte count equal to the original size). -/
theorem chunk_protocol_roundtrip (ty fid fname selfId : String)
    (bytes : Bytes) :
    ∃ fd : FileData,
      (((handleBlobRequest [(fid, Blob.mk ty bytes)] fid fname
              selfId).dropLast).foldl applyMsg
            (RecvState.mk [] [])).fileChunks.lookup fid
          = some fd
        ∧ fd.chunks.flatten = bytes
        ∧ fd.receivedSize = bytes.length := by
  have hreq : handleBlobRequest [(fid, Blob.mk ty bytes)] fid fname selfId
      = (Msg.fileHeader fid fname ty bytes.length selfId
            :: sendChunkMsgs fid bytes 0)
          ++ [Msg.fileComplete fid fname ty bytes.length] := by
    rw [handleBlobRequest]
    simp [List.lookup_cons]
  rw [hreq, List.dropLast_concat, List.foldl_cons]
  have hhd : applyMsg (RecvState.mk [] [])
        (Msg.fileHeader fid fname ty bytes.length selfId)
      = RecvState.mk []
          [(fid, FileData.mk [] fname ty bytes.length 0 selfId)] := by
    simp [applyMsg, handleFileHeader, insertKey, eraseKey]
  rw [hhd, sendChunkMsgs, foldl_chunk_msgs]
  have hlen : ((chunkDatas bytes 0).map List.length).sum = bytes.length := by
    have hfl := congrArg List.length (chunkDatas_flatten bytes 0)
    simpa [List.length_flatten] using hfl
  refine ⟨FileData.mk ([] ++ chunkDatas bytes 0) fname ty bytes.length
      (0 + ((chunkDatas bytes 0).map List.length).sum) selfId, ?_, ?_, ?_⟩
  · simp [List.lookup_cons]
  · simpa using chunkDatas_flatten bytes 0
  · simpa using hlen

/-- C2 counterexample: a `file-complete` for a save-to-disk transfer with
declared size 1000 after zero chunk messages.  The received total, 0,
differs from the declared 1000, yet the handler raises no size-mismatch
error (and no error at all): it completes silently without a download,
refuting "a size-mismatch error is raised if and only if the total number
of received bytes differs from the declared file size" for the
zero-chunk case it quantifies over. -/
theorem zero_chunk_completion_not_size_checked :
    (handleFileComplete
          (RecvState.mk []
            [("f", FileData.mk [] "a.txt" "text/plain" 1000 0 "A")]) "f").1
        = CompleteEffect.completedNoDownload
      ∧ CompleteEffect.completedNoDownload
          ≠ CompleteEffect.errorNotified sizeMismatchMsg
      ∧ CompleteEffect.completedNoDownload
          ≠ CompleteEffect.rejected sizeMismatchMsg
      ∧ ([] : List Bytes).flatten.length ≠ 1000 := by decide

/-- C2 amended: at completion of an inbound transfer that received at
least one chunk, a size-mismatch error is raised iff the reassembled byte
count differs from the declared size; on a match the bytes are handed to
the workflow that started the transfer (promise resolution for a pending
blob request, `downloadBlob` for save-to-disk), and in either case the
inbound state for the fileId is discarded.  (A zero-chunk completion is
not size-checked: the save-to-disk path completes silently and the
blob-request path rejects with 'No chunks received'.) -/
theorem size_mismatch_iff_with_chunks (st : RecvState) (fileId : String) :
    (∀ r : PendingReq, st.pendingBlobRequests.lookup fileId = some r →
      r.chunks ≠ [] →
        (handleFileComplete st fileId).1
            = (if r.chunks.flatten.length ≠ r.fileSize
                then CompleteEffect.rejected sizeMismatchMsg
                else CompleteEffect.resolved r.chunks.flatten)
          ∧ ((handleFileComplete st fileId).2).pendingBlobRequests
              = eraseKey fileId st.pendingBlobRequests)
    ∧ (st.pendingBlobRequests.lookup fileId = none →
        ∀ fd : FileData, st.fileChunks.lookup fileId = some fd →
          fd.chunks ≠ [] →
            (handleFileComplete st fileId).1
                = (if fd.chunks.flatten.length ≠ fd.fileSize
                    then CompleteEffect.errorNotified sizeMismatchMsg
                    else CompleteEffect.downloaded fd.chunks.flatten)
              ∧ ((handleFileComplete st fileId).2).fileChunks
                  = eraseKey fileId st.fileChunks) := by
  constructor
  · intro r hr hc
    have hlen : r.chunks.length > 0 := List.length_pos.mpr hc
    simp only [handleFileComplete, hr, if_pos hlen]
    by_cases hsz : r.chunks.flatten.length ≠ r.fileSize
    · have hsz' := hsz
      rw [List.length_flatten] at hsz'
      simp [hsz']
    · have hsz' := hsz
      rw [not_not] at hsz'
      rw [List.length_flatten] at hsz'
      simp [hsz, hsz']
  · intro hp fd hf hc
    have hlen : fd.chunks.length > 0 := List.length_pos.mpr hc
    simp only [handleFileComplete, hp, hf, if_pos hlen]
    by_cases hsz : fd.chunks.flatten.length ≠ fd.fileSize
    · have hsz' := hsz
      rw [List.length_flatten] at hsz'
      simp [hsz']
    · have hsz' := hsz
      rw [not_not] at hsz'
      rw [List.length_flatten] at hsz'
      simp [hsz, hsz']

/-- Witness for the amended C2: a pending blob request whose single chunk
matches the declared size resolves with the reassembled bytes. -/
theorem size_mismatch_iff_with_chunks_witness :
    (handleFileComplete
          (RecvState.mk
            [("f", PendingReq.mk [[1, 2]] "a.txt" "text/plain" 2 2)] [])
          "f").1
        = CompleteEffect.resolved [1, 2] := by
  have h := (size_mismatch_iff_with_chunks
      (RecvState.mk [("f", PendingReq.mk [[1, 2]] "a.txt" "text/plain" 2 2)]
        [])
      "f").1 (PendingReq.mk [[1, 2]] "a.txt" "text/plain" 2 2) (by decide)
      (by decide)
  rw [h.1]
  decide

theorem planLoop_perm (files : List FileInfo) :
    ∀ (zb : List (List FileInfo)) (ind cur : List FileInfo) (cs : Nat),
      ((planLoop files zb ind cur cs).zipBatches.flatten
          ++ (planLoop files zb ind cur cs).individualFiles).Perm
        (zb.flatten ++ ind ++ cur ++ files) := by
  induction files with
  | nil =>
      intro zb ind cur cs
      simp only [planLoop]
      by_cases hc : cur.length > 0
      · rw [if_pos hc]
        rw [List.perm_iff_count]
        intro a
        simp [List.count_append, List.flatten_append]
        omega
      · rw [if_neg hc]
        have hlen : cur.length = 0 := by omega
        have hcur : cur = [] := List.length_eq_zero.mp hlen
        subst hcur
        simp
  | cons f rest ih =>
      intro zb ind cur cs
      simp only [planLoop]
      by_cases h1 : f.size > INDIVIDUAL_DOWNLOAD_THRESHOLD
      · rw [if_pos h1]
        refine (ih _ _ _ _).trans ?_
        rw [List.perm_iff_count]
        intro a
        simp [List.count_append, List.count_cons]
        try omega
      · rw [if_neg h1]
        by_cases h2 : cs + f.size ≤ ZIP_SIZE_LIMIT
        · rw [if_pos h2]
          refine (ih _ _ _ _).trans ?_
          rw [List.perm_iff_count]
          intro a
          simp [List.count_append, List.count_cons]
          try omega
        · rw [if_neg h2]
          by_cases hc : cur.length > 0
          · simp only [if_pos hc]
            by_cases h3 : canFitWithRemaining f.size rest = true
            · rw [if_pos h3]
              refine (ih _ _ _ _).trans ?_
              rw [List.perm_iff_count]
              intro a
              simp [List.count_append, List.count_cons, List.flatten_append]
              try omega
            · rw [if_neg h3]
              refine (ih _ _ _ _).trans ?_
              rw [List.perm_iff_count]
              intro a
              simp [List.count_append, List.count_cons, List.flatten_append]
              try omega
          · simp only [if_neg hc]
            by_cases h3 : canFitWithRemaining f.size rest = true
            · rw [if_pos h3]
              refine (ih _ _ _ _).trans ?_
              rw [List.perm_iff_count]
              intro a
              simp [List.count_append, List.count_cons]
              try omega
            · rw [if_neg h3]
              refine (ih _ _ _ _).trans ?_
              rw [List.perm_iff_count]
              intro a
              simp [List.count_append, List.count_cons]
              try omega

/-- `currentBatchSize` as recomputed from a batch's contents. -/
def sumSizes (b : List FileInfo) : Nat := (b.map (fun g => g.size)).sum

theorem sumSizes_append (l1 l2 : List FileInfo) :
    sumSizes (l1 ++ l2) = sumSizes l1 + sumSizes l2 := by
  simp [sumSizes]

theorem threshold_le_limit :
    INDIVIDUAL_DOWNLOAD_THRESHOLD ≤ ZIP_SIZE_LIMIT := by
  rw [INDIVIDUAL_DOWNLOAD_THRESHOLD, ZIP_SIZE_LIMIT]
  omega

theorem planLoop_batch_sums (files : List FileInfo) :
    ∀ (zb : List (List FileInfo)) (ind cur : List FileInfo) (cs : Nat),
      (∀ b ∈ zb, sumSizes b ≤ ZIP_SIZE_LIMIT) →
      sumSizes cur ≤ ZIP_SIZE_LIMIT →
      cs = sumSizes cur →
      ∀ b ∈ (planLoop files zb ind cur cs).zipBatches,
        sumSizes b ≤ ZIP_SIZE_LIMIT := by
  induction files with
  | nil =>
      intro zb ind cur cs hzb hcur hcs
      simp only [planLoop]
      by_cases hc : cur.length > 0
      · rw [if_pos hc]
        intro b hb
        rcases List.mem_append.mp hb with h | h
        · exact hzb b h
        · rw [List.mem_singleton.mp h]
          exact hcur
      · rw [if_neg hc]
        exact hzb
  | cons f rest ih =>
      intro zb ind cur cs hzb hcur hcs
      simp only [planLoop]
      by_cases h1 : f.size > INDIVIDUAL_DOWNLOAD_THRESHOLD
      · rw [if_pos h1]
        exact ih _ _ _ _ hzb hcur hcs
      · rw [if_neg h1]
        by_cases h2 : cs + f.size ≤ ZIP_SIZE_LIMIT
        · rw [if_pos h2]
          refine ih _ _ _ _ hzb ?_ ?_
          · rw [sumSizes_append, ← hcs]
            simpa [sumSizes] using h2
          · rw [sumSizes_append, ← hcs]
            simp [sumSizes]
        · rw [if_neg h2]
          have hfL : f.size ≤ ZIP_SIZE_LIMIT :=
            Nat.le_trans (by omega) threshold_le_limit
          by_cases hc : cur.length > 0
          · simp only [if_pos hc]
            have hzb' : ∀ b ∈ zb ++ [cur], sumSizes b ≤ ZIP_SIZE_LIMIT := by
              intro b hb
              rcases List.mem_append.mp hb with h | h
              · exact hzb b h
              · rw [List.mem_singleton.mp h]
                exact hcur
            by_cases h3 : canFitWithRemaining f.size rest = true
            · rw [if_pos h3]
              refine ih _ _ _ _ hzb' ?_ ?_
              · simpa [sumSizes] using hfL
              · simp [sumSizes]
            · rw [if_neg h3]
              exact ih _ _ _ _ hzb' (by simp [sumSizes]) (by simp [sumSizes])
          · simp only [if_neg hc]
            have hcur0 : cur = [] :=
              List.length_eq_zero.mp (by omega)
            subst hcur0
            by_cases h3 : canFitWithRemaining f.size rest = true
            · rw [if_pos h3]
              refine ih _ _ _ _ hzb ?_ ?_
              · simpa [sumSizes] using hfL
              · simp [sumSizes]
            · rw [if_neg h3]
              refine ih _ _ _ _ hzb (by simp [sumSizes]) hcs

/-- C3: the planner's ZIP batches and standalone list exactly partition
the input (as multisets: nothing is dropped, nothing is duplicated), and
every batch's size sum is at most the 400MB ceiling. -/
theorem planner_partition_and_bound (files : List FileInfo) :
    ((planBatches files).zipBatches.flatten
        ++ (planBatches files).individualFiles).Perm files
      ∧ ∀ b ∈ (planBatches files).zipBatches,
          sumSizes b ≤ ZIP_SIZE_LIMIT := by
  constructor
  · rw [planBatches]
    refine (planLoop_perm
        (files.mergeSort (fun a b => decide (a.size ≤ b.size)))
        [] [] [] 0).trans ?_
    simpa using List.mergeSort_perm files (fun a b => decide (a.size ≤ b.size))
  · rw [planBatches]
    exact planLoop_batch_sums
      (files.mergeSort (fun a b => decide (a.size ≤ b.size))) [] [] [] 0
      (by simp) (by simp [sumSizes]) (by simp [sumSizes])

theorem planLoop_batch_members_small (files : List FileInfo) :
    ∀ (zb : List (List FileInfo)) (ind cur : List FileInfo) (cs : Nat),
      (∀ b ∈ zb, ∀ g ∈ b, g.size ≤ INDIVIDUAL_DOWNLOAD_THRESHOLD) →
      (∀ g ∈ cur, g.size ≤ INDIVIDUAL_DOWNLOAD_THRESHOLD) →
      ∀ b ∈ (planLoop files zb ind cur cs).zipBatches, ∀ g ∈ b,
        g.size ≤ INDIVIDUAL_DOWNLOAD_THRESHOLD := by
  induction files with
  | nil =>
      intro zb ind cur cs hzb hcur
      simp only [planLoop]
      by_cases hc : cur.length > 0
      · rw [if_pos hc]
        intro b hb
        rcases List.mem_append.mp hb with h | h
        · exact hzb b h
        · rw [List.mem_singleton.mp h]
          exact hcur
      · rw [if_neg hc]
        exact hzb
  | cons f rest ih =>
      intro zb ind cur cs hzb hcur
      simp only [planLoop]
      by_cases h1 : f.size > INDIVIDUAL_DOWNLOAD_THRESHOLD
      · rw [if_pos h1]
        exact ih _ _ _ _ hzb hcur
      · rw [if_neg h1]
        have hcurf : ∀ g ∈ cur ++ [f],
            g.size ≤ INDIVIDUAL_DOWNLOAD_THRESHOLD := by
          intro g hg
          rcases List.mem_append.mp hg with h | h
          · exact hcur g h
          · rw [List.mem_singleton.mp h]
            omega
        by_cases h2 : cs + f.size ≤ ZIP_SIZE_LIMIT
        · rw [if_pos h2]
          exact ih _ _ _ _ hzb hcurf
        · rw [if_neg h2]
          by_cases hc : cur.length > 0
          · simp only [if_pos hc]
            have hzb' : ∀ b ∈ zb ++ [cur], ∀ g ∈ b,
                g.size ≤ INDIVIDUAL_DOWNLOAD_THRESHOLD := by
              intro b hb
              rcases List.mem_append.mp hb with h | h
              · exact hzb b h
              · rw [List.mem_singleton.mp h]
                exact hcur
            by_cases h3 : canFitWithRemaining f.size rest = true
            · rw [if_pos h3]
              refine ih _ _ _ _ hzb' ?_
              intro g hg
              have hgf : g = f := by simpa using hg
              subst hgf
              omega
            · rw [if_neg h3]
              exact ih _ _ _ _ hzb' (by intro g hg; cases hg)
          · simp only [if_neg hc]
            have hcur0 : cur = [] := List.length_eq_zero.mp (by omega)
            subst hcur0
            by_cases h3 : canFitWithRemaining f.size rest = true
            · rw [if_pos h3]
              exact ih _ _ _ _ hzb hcurf
            · rw [if_neg h3]
              exact ih _ _ _ _ hzb hcur

theorem planLoop_ind_mono (files : List FileInfo) :
    ∀ (zb : List (List FileInfo)) (ind cur : List FileInfo) (cs : Nat),
      ∀ x ∈ ind, x ∈ (planLoop files zb ind cur cs).individualFiles := by
  induction files with
  | nil =>
      intro zb ind cur cs x hx
      simp only [planLoop]
      exact hx
  | cons f rest ih =>
      intro zb ind cur cs x hx
      simp only [planLoop]
      by_cases h1 : f.size > INDIVIDUAL_DOWNLOAD_THRESHOLD
      · rw [if_pos h1]
        exact ih _ _ _ _ x (List.mem_append_left _ hx)
      · rw [if_neg h1]
        by_cases h2 : cs + f.size ≤ ZIP_SIZE_LIMIT
        · rw [if_pos h2]
          exact ih _ _ _ _ x hx
        · rw [if_neg h2]
          by_cases hc : cur.length > 0
          · simp only [if_pos hc]
            by_cases h3 : canFitWithRemaining f.size rest = true
            · rw [if_pos h3]
              exact ih _ _ _ _ x hx
            · rw [if_neg h3]
              exact ih _ _ _ _ x (List.mem_append_left _ hx)
          · simp only [if_neg hc]
            by_cases h3 : canFitWithRemaining f.size rest = true
            · rw [if_pos h3]
              exact ih _ _ _ _ x hx
            · rw [if_neg h3]
              exact ih _ _ _ _ x (List.mem_append_left _ hx)

theorem planLoop_oversize_to_ind (files : List FileInfo) :
    ∀ (zb : List (List FileInfo)) (ind cur : List FileInfo) (cs : Nat),
      ∀ f ∈ files, f.size > INDIVIDUAL_DOWNLOAD_THRESHOLD →
        f ∈ (planLoop files zb ind cur cs).individualFiles := by
  induction files with
  | nil =>
      intro zb ind cur cs f hf
      cases hf
  | cons g rest ih =>
      intro zb ind cur cs f hf hsize
      rcases List.mem_cons.mp hf with rfl | hf
      · simp only [planLoop, if_pos hsize]
        exact planLoop_ind_mono rest _ _ _ _ f (List.mem_append_right _ (by simp))
      · simp only [planLoop]
        by_cases h1 : g.size > INDIVIDUAL_DOWNLOAD_THRESHOLD
        · rw [if_pos h1]
          exact ih _ _ _ _ f hf hsize
        · rw [if_neg h1]
          by_cases h2 : cs + g.size ≤ ZIP_SIZE_LIMIT
          · rw [if_pos h2]
            exact ih _ _ _ _ f hf hsize
          · rw [if_neg h2]
            by_cases hc : cur.length > 0
            · simp only [if_pos hc]
              by_cases h3 : canFitWithRemaining g.size rest = true
              · rw [if_pos h3]
                exact ih _ _ _ _ f hf hsize
              · rw [if_neg h3]
                exact ih _ _ _ _ f hf hsize
            · simp only [if_neg hc]
              by_cases h3 : canFitWithRemaining g.size rest = true
              · rw [if_pos h3]
                exact ih _ _ _ _ f hf hsize
              · rw [if_neg h3]
                exact ih _ _ _ _ f hf hsize

/-- C9: a descriptor strictly larger than the 350MB threshold is always
routed to the standalone (individual download) list and never appears in
any ZIP batch, for every input order. -/
theorem oversize_routed_standalone (files : List FileInfo) (f : FileInfo)
    (hf : f ∈ files) (hsize : f.size > INDIVIDUAL_DOWNLOAD_THRESHOLD) :
    f ∈ (planBatches files).individualFiles
      ∧ ∀ b ∈ (planBatches files).zipBatches, f ∉ b := by
  constructor
  · rw [planBatches]
    refine planLoop_oversize_to_ind _ [] [] [] 0 f ?_ hsize
    exact (List.mergeSort_perm files
      (fun a b => decide (a.size ≤ b.size))).mem_iff.mpr hf
  · intro b hb hfb
    rw [planBatches] at hb
    have := planLoop_batch_members_small
      (files.mergeSort (fun a b => decide (a.size ≤ b.size))) [] [] [] 0
      (by simp) (by simp) b hb f hfb
    omega

/-- Witness for C9: a single 400,000,000-byte descriptor goes standalone. -/
theorem oversize_routed_standalone_witness :
    FileInfo.mk "big.bin" "application/zip" 400000000 "id1" "A"
        ∈ (planBatches
            [FileInfo.mk "big.bin" "application/zip" 400000000 "id1" "A"]).individualFiles
      ∧ ∀ b ∈ (planBatches
            [FileInfo.mk "big.bin" "application/zip" 400000000 "id1" "A"]).zipBatches,
          FileInfo.mk "big.bin" "application/zip" 400000000 "id1" "A" ∉ b :=
  oversize_routed_standalone
    [FileInfo.mk "big.bin" "application/zip" 400000000 "id1" "A"]
    (FileInfo.mk "big.bin" "application/zip" 400000000 "id1" "A")
    (by decide) (by decide)

end OneHost
